import Mathlib

/-! ArrayBlob (realm/array_blob.hpp)

A shallow embedding of the blob node accessor `realm::ArrayBlob` and of the
properties stated about it.

Conventions of the embedding:

* values of type `std::size_t` are natural numbers below `SIZE_MOD = 2 ^ 64`;
  every `size_t` operation of the source is followed by `to_size_t`, which
  reduces the exact integer result modulo `SIZE_MOD`;
* a `const char*` is a natural number address, `nullptr` being address `0`;
  pointer arithmetic is address arithmetic modulo `SIZE_MOD`;
* `header_size` (a constant of `realm/array.hpp`, which is not part of the
  sources at hand) is an explicit parameter, written `hs`.
-/

namespace realm

/-! ## Machine integers -/

/-- Number of values of the 64-bit `std::size_t` (and of addresses): results
are reduced modulo this. -/
def SIZE_MOD : Nat := 2 ^ 64

/-- Reduction of an exact integer result to the `std::size_t` value the
machine computes for it (wrap-around modulo `2 ^ 64`). -/
def to_size_t (x : Int) : Nat := (x % (SIZE_MOD : Int)).toNat

/-! ## Capacity / size accounting -/

/-- `ArrayBlob::CalcByteLen(count, width)`: `return header_size + count;`
(the width argument is unnamed and unused in the source). -/
def CalcByteLen (hs : Nat) (count : Nat) (_width : Nat) : Nat :=
  to_size_t ((hs : Int) + (count : Int))

/-- `ArrayBlob::CalcItemCount(bytes, width)`: `return bytes - header_size;`
(the width argument is unnamed and unused in the source). -/
def CalcItemCount (hs : Nat) (bytes : Nat) (_width : Nat) : Nat :=
  to_size_t ((bytes : Int) - (hs : Int))

/-! ## Data model -/

/-- Modelled from the spec: the element-width type of a node header, an
enumeration of `realm/array.hpp` (absent). The blob node is configured with
the width type "ignored" (§6); the other value stands for the bit-width-packed
integer node variants the spec mentions (§1). -/
inductive WidthType where
  | wtype_Bits
  | wtype_Ignore
  deriving DecidableEq, Repr

/-- Modelled from the spec: the node kind recorded in a header, an enumeration
of `realm/array.hpp` (absent); `type_Normal` is the only value the source
uses, `type_HasRefs` stands for the kinds of the tree layer (§1). -/
inductive ArrayType where
  | type_Normal
  | type_HasRefs
  deriving DecidableEq, Repr

/-- `ArrayBlob::GetWidthType()`: `return wtype_Ignore;`. -/
def GetWidthType : WidthType := WidthType.wtype_Ignore

/-- Modelled from the spec: the failure taxonomy of §7. The only failure a
call reports is that of the allocator collaborator. -/
inductive Error where
  | AllocationError
  deriving DecidableEq, Repr

/-- Modelled from the spec: a memory handle (`MemRef` of `realm/alloc.hpp`,
absent), "an opaque reference returned by the allocator identifying a specific
allocated region". It is identified with the address of the region's first
header byte. -/
structure MemRef where
  m_addr : Nat
  deriving DecidableEq, Repr

/-- Modelled from the spec: the decoded content of a node header
(`decode_size` / `encode_size` of the header codec of §6, and the
configuration of §6's layout table). The byte-level encoding belongs to the
excluded generic node format and is not modelled. -/
structure Header where
  size : Nat
  width_type : WidthType
  context_flag : Bool
  type : ArrayType
  deriving DecidableEq, Repr

/-- The address space: the header decoded at each header address and the
byte stored at each address. -/
structure Memory where
  header : Nat → Header
  byte : Nat → Nat

/-- Modelled from the spec: the allocator collaborator of §6, as an oracle.
`alloc n` answers a request for `n` total bytes with a handle or with `none`
(`AllocationError`); `realloc r n` answers the request to make the region of
handle `r` hold `n` total bytes, with the (possibly relocated) handle or with
`none` (`AllocationError`). -/
structure Allocator where
  alloc : Nat → Option MemRef
  realloc : MemRef → Nat → Option MemRef

/-- The accessor object: the members of `Array` that `array_blob.hpp` reads
(`m_data`, `m_size`) and the memory handle the accessor is bound to. An
unattached accessor has `m_data = 0` (`nullptr`). -/
structure ArrayBlob where
  m_ref : MemRef
  m_data : Nat
  m_size : Nat
  deriving DecidableEq, Repr

/-- State a call runs in: the accessor and the memory. -/
structure World where
  self : ArrayBlob
  mem : Memory

/-- Result of a call that may throw: the state after normal return, or the
exception together with the state the caller observes after it. -/
inductive Outcome where
  | ok (w : World)
  | thrown (e : Error) (w : World)

/-- Modelled from the spec: `get_data_from_header` of the header codec (§6):
the raw content pointer of a header; by the layout table of §6 the content
bytes start `header_size` bytes after the first header byte. -/
def get_data_from_header (hs : Nat) (header : Nat) : Nat :=
  to_size_t ((header : Int) + (hs : Int))

/-! ## Read accessors -/

/-- `ArrayBlob::get(std::size_t index) const`: `return m_data + index;`.
A `const` method: it reads the accessor and returns an address. -/
def ArrayBlob.get (self : ArrayBlob) (index : Nat) : Nat :=
  to_size_t ((self.m_data : Int) + (index : Int))

/-- `ArrayBlob::is_null(std::size_t index) const`:
`return (get(index) == nullptr);`. -/
def ArrayBlob.is_null (self : ArrayBlob) (index : Nat) : Bool :=
  self.get index == 0

/-- The static `ArrayBlob::get(const char* header, std::size_t pos)`:
`const char* data = get_data_from_header(header); return data + pos;`. -/
def ArrayBlob.get_static (hs : Nat) (header : Nat) (pos : Nat) : Nat :=
  let data := get_data_from_header hs header
  to_size_t ((data : Int) + (pos : Int))

/-- The call `get(index)` as a transformer of the state: its result and the
state after the call. The method is `const` and its body assigns nothing. -/
def ArrayBlob.get_call (w : World) (index : Nat) : Nat × World :=
  (w.self.get index, w)

/-- An attached accessor: `m_data` is not `nullptr` and the `m_size` content
bytes that start at `m_data` lie inside the address space. -/
def ArrayBlob.attached (self : ArrayBlob) : Prop :=
  self.m_data ≠ 0 ∧ self.m_data + self.m_size ≤ SIZE_MOD

/-! ## The mutation primitive -/

/-- Modelled from the spec: `ArrayBlob::replace` (defined in `array_blob.cpp`,
absent), after the contract of §4.1. With `add_size = size (+1 with the zero
terminator)` the new size is `m_size - (end - begin) + add_size`; the
allocator is asked for a region of `CalcByteLen(new_size)` bytes and its
failure leaves the state as it was; otherwise the content of the (possibly
relocated) region is the old prefix `[0, begin)`, the `size` bytes at `data`,
the zero terminator if requested, and the old suffix `[end, m_size)`; the
header and the accessor record the new size. -/
def ArrayBlob.replace (hs : Nat) (alloc : Allocator) (w : World)
    (begin end_ data size : Nat) (add_zero_term : Bool) : Outcome :=
  let self := w.self
  let add_size := if add_zero_term then to_size_t ((size : Int) + 1) else size
  let new_size :=
    to_size_t ((self.m_size : Int) - ((end_ : Int) - (begin : Int)) + (add_size : Int))
  match alloc.realloc self.m_ref (CalcByteLen hs new_size 1) with
  | none => Outcome.thrown Error.AllocationError w
  | some r =>
    let base := get_data_from_header hs r.m_addr
    let old := w.mem
    let byte := fun a =>
      if a < base ∨ base + new_size ≤ a then old.byte a
      else
        let i := a - base
        if i < begin then old.byte (self.m_data + i)
        else if i < begin + size then old.byte (data + (i - begin))
        else if i < begin + add_size then 0
        else old.byte (self.m_data + (end_ + (i - (begin + add_size))))
    let header := fun a =>
      if a = r.m_addr then { old.header self.m_ref.m_addr with size := new_size }
      else old.header a
    Outcome.ok
      { self := { m_ref := r, m_data := base, m_size := new_size },
        mem := { header := header, byte := byte } }

/-! ## Derived operations -/

/-- `ArrayBlob::add(data, size, add_zero_term)`:
`replace(m_size, m_size, data, size, add_zero_term);`. -/
def ArrayBlob.add (hs : Nat) (alloc : Allocator) (w : World)
    (data size : Nat) (add_zero_term : Bool) : Outcome :=
  ArrayBlob.replace hs alloc w w.self.m_size w.self.m_size data size add_zero_term

/-- `ArrayBlob::insert(pos, data, size, add_zero_term)`:
`replace(pos, pos, data, size, add_zero_term);`. -/
def ArrayBlob.insert (hs : Nat) (alloc : Allocator) (w : World)
    (pos data size : Nat) (add_zero_term : Bool) : Outcome :=
  ArrayBlob.replace hs alloc w pos pos data size add_zero_term

/-- `ArrayBlob::erase(begin, end)`:
`const char* data = nullptr; std::size_t size = 0; replace(begin, end, data, size);`
where the omitted last argument takes the default `add_zero_term = false` of
the declaration of `replace`. -/
def ArrayBlob.erase (hs : Nat) (alloc : Allocator) (w : World)
    (begin end_ : Nat) : Outcome :=
  let data := 0
  let size := 0
  ArrayBlob.replace hs alloc w begin end_ data size false

/-! ## Construction -/

/-- Modelled from the spec: `Array::create` (defined in `array.cpp`, absent),
as `create_array` uses it (§4.1, construction helper): the allocator is asked
for the `header_size + size` bytes of a region with `size` content bytes
(§4.1, capacity accounting); its failure is reported and nothing is written;
otherwise the header of the new region records the node kind, the context
flag, the width type and the size, every content byte is set to the fill
`value` (zero for a blob) and the handle is returned. -/
def Array_create (hs : Nat) (type : ArrayType) (context_flag : Bool)
    (width_type : WidthType) (size : Nat) (value : Int) (alloc : Allocator)
    (mem : Memory) : Except Error (MemRef × Memory) :=
  match alloc.alloc (to_size_t ((hs : Int) + (size : Int))) with
  | none => Except.error Error.AllocationError
  | some r =>
    let base := get_data_from_header hs r.m_addr
    let header := fun a =>
      if a = r.m_addr then
        { size := size, width_type := width_type, context_flag := context_flag,
          type := type }
      else mem.header a
    let byte := fun a =>
      if base ≤ a ∧ a < base + size then (value % 256).toNat else mem.byte a
    Except.ok (r, { header := header, byte := byte })

/-- Modelled from the spec: `Array::init_from_mem` (defined in `array.cpp`,
absent), the attachment of §4.1: "after attachment, `size` and `data_origin`
are derived consistently from that handle's header". The accessor is bound to
the handle; the memory is not written. -/
def ArrayBlob.init_from_mem (hs : Nat) (w : World) (mem : MemRef) : World :=
  { w with
    self :=
      { m_ref := mem,
        m_data := get_data_from_header hs mem.m_addr,
        m_size := (w.mem.header mem.m_addr).size } }

/-- `ArrayBlob::create_array(size, alloc)`:
`bool context_flag = false; int_fast64_t value = 0;`
`return Array::create(type_Normal, context_flag, wtype_Ignore, size, value, alloc);`.
A static member function: it has no accessor to read or write. -/
def ArrayBlob.create_array (hs : Nat) (size : Nat) (alloc : Allocator)
    (mem : Memory) : Except Error (MemRef × Memory) :=
  let context_flag := false
  let value : Int := 0
  Array_create hs ArrayType.type_Normal context_flag WidthType.wtype_Ignore size value
    alloc mem

/-- `ArrayBlob::create()`:
`std::size_t size = 0; MemRef mem = create_array(size, get_alloc()); init_from_mem(mem);`
where `alloc` is the allocator the accessor was constructed with. An
exception of `create_array` leaves `create` before anything is assigned. -/
def ArrayBlob.create (hs : Nat) (alloc : Allocator) (w : World) : Outcome :=
  let size := 0
  match ArrayBlob.create_array hs size alloc w.mem with
  | Except.error e => Outcome.thrown e w
  | Except.ok (mem, m) => Outcome.ok (ArrayBlob.init_from_mem hs { w with mem := m } mem)

/-- The call `create_array(size, alloc)` as a transformer of the state of a
caller that holds an accessor: the function is static, so the accessor is
passed through and only the memory is handed to `create_array`. -/
def ArrayBlob.create_array_call (hs : Nat) (size : Nat) (alloc : Allocator)
    (w : World) : Except Error (MemRef × World) :=
  match ArrayBlob.create_array hs size alloc w.mem with
  | Except.error e => Except.error e
  | Except.ok (r, m) => Except.ok (r, { w with mem := m })

/-- The state a `create_array` call leaves behind: the state it returned
in, or the one it started in when it threw. -/
def ArrayBlob.create_array_world (hs : Nat) (size : Nat) (alloc : Allocator)
    (w : World) : World :=
  match ArrayBlob.create_array_call hs size alloc w with
  | Except.error _ => w
  | Except.ok (_, w') => w'

/-! ## Observing the content of a node -/

/-- The byte read through the address `get(i)` returns. -/
def ArrayBlob.read (w : World) (i : Nat) : Nat :=
  w.mem.byte (w.self.get i)

/-- The content of a node: the bytes read at `get(0)`, ..., `get(m_size - 1)`. -/
def ArrayBlob.content (w : World) : List Nat :=
  (List.range w.self.m_size).map (ArrayBlob.read w)

/-- The `n` bytes a caller passes as `(data, n)`: those stored at the
addresses `data`, ..., `data + n - 1`. -/
def bytes_at (mem : Memory) (data n : Nat) : List Nat :=
  (List.range n).map (fun j => mem.byte (data + j))

/-- The state a call leaves behind, whether it returned or threw. -/
def Outcome.world (o : Outcome) : World :=
  match o with
  | Outcome.ok w => w
  | Outcome.thrown _ w => w

/-! ## Concrete states used to exercise the statements -/

/-- A memory whose headers are all empty blob headers and whose bytes are all
zero. -/
def blank_memory : Memory where
  header := fun _ =>
    { size := 0, width_type := WidthType.wtype_Ignore, context_flag := false,
      type := ArrayType.type_Normal }
  byte := fun _ => 0

/-- An allocator that refuses every request. -/
def exhausted_allocator : Allocator where
  alloc := fun _ => none
  realloc := fun _ _ => none

/-- An allocator that serves requests of at most 64 bytes, placing a new
region at address 4088 and growing regions in place. -/
def small_allocator : Allocator where
  alloc := fun n => if n ≤ 64 then some { m_addr := 4088 } else none
  realloc := fun r n => if n ≤ 64 then some r else none

/-- An accessor attached to a region at 4088 (content at 4096) of 5 bytes. -/
def sample_blob : ArrayBlob :=
  { m_ref := { m_addr := 4088 }, m_data := 4096, m_size := 5 }

/-- An unattached accessor in a blank memory. -/
def fresh_world : World :=
  { self := { m_ref := { m_addr := 0 }, m_data := 0, m_size := 0 }, mem := blank_memory }

/-- A memory holding the five bytes of "hello" at 4096 (a blob of size 5
whose header is at 4088), the two bytes of "XY" at 200 and the byte of "i" at
300; every other byte is zero. -/
def hello_memory : Memory where
  header := fun _ =>
    { size := 5, width_type := WidthType.wtype_Ignore, context_flag := false,
      type := ArrayType.type_Normal }
  byte := fun a =>
    if a = 4096 then 104 else if a = 4097 then 101 else if a = 4098 then 108
    else if a = 4099 then 108 else if a = 4100 then 111
    else if a = 200 then 88 else if a = 201 then 89
    else if a = 300 then 105 else 0

/-- The node holding "hello". -/
def hello_world : World :=
  { self := sample_blob, mem := hello_memory }

/-- An allocator that serves every resize request by moving the region 1024
bytes up. -/
def moving_allocator : Allocator where
  alloc := fun _ => some { m_addr := 4088 }
  realloc := fun r _ => some { m_addr := r.m_addr + 1024 }

/-! ## Helper lemmas on `size_t` arithmetic -/

theorem SIZE_MOD_eq : SIZE_MOD = 18446744073709551616 := by
  norm_num [SIZE_MOD]

theorem to_size_t_lt (x : Int) : to_size_t x < SIZE_MOD := by
  unfold to_size_t
  rw [SIZE_MOD_eq]
  push_cast
  omega

theorem to_size_t_of_range (x : Int) (h0 : 0 ≤ x) (h1 : x < (SIZE_MOD : Int)) :
    (to_size_t x : Int) = x := by
  unfold to_size_t
  rw [SIZE_MOD_eq] at *
  push_cast at *
  omega

theorem to_size_t_natCast (n : Nat) : to_size_t (n : Int) = n % SIZE_MOD := by
  unfold to_size_t
  rw [SIZE_MOD_eq]
  push_cast
  omega

/-! ## Capacity laws -/

/-- C1. Capacity inverse law: for every `size_t` content byte count `count`
and all width arguments, `CalcItemCount(CalcByteLen(count, w), w')` is `count`
again, also when the sum `header_size + count` wraps around. -/
theorem CalcItemCount_CalcByteLen (hs count w w' : Nat) (hcount : count < SIZE_MOD) :
    CalcItemCount hs (CalcByteLen hs count w) w' = count := by
  unfold CalcItemCount CalcByteLen to_size_t
  rw [SIZE_MOD_eq] at *
  push_cast
  omega

theorem CalcItemCount_CalcByteLen_witness :
    (18446744073709551615 < SIZE_MOD) ∧
      CalcItemCount 8 (CalcByteLen 8 18446744073709551615 1) 1 = 18446744073709551615 :=
  ⟨by decide, CalcItemCount_CalcByteLen 8 18446744073709551615 1 1 (by decide)⟩

/-- C2 (as stated, refuted). With `header_size = 8` and the `size_t` count
`2 ^ 64 - 1`, `CalcByteLen` returns `7`: not the true sum `8 + count`, and a
value smaller than `count`. -/
theorem CalcByteLen_wraps :
    CalcByteLen 8 18446744073709551615 1 = 7 ∧
      CalcByteLen 8 18446744073709551615 1 ≠ 8 + 18446744073709551615 ∧
      CalcByteLen 8 18446744073709551615 1 < 18446744073709551615 := by
  refine ⟨by decide, by decide, by decide⟩

/-- C2 (amended). For every `size_t` count and width, `CalcByteLen` returns
`header_size + count` reduced modulo `2 ^ 64`: exactly `header_size + count`
(hence at least `count`) when that sum is below `2 ^ 64`, and
`header_size + count - 2 ^ 64` otherwise; the result never depends on the
width argument. -/
theorem CalcByteLen_spec (hs count w w' : Nat) (hhs : hs < SIZE_MOD)
    (hcount : count < SIZE_MOD) :
    CalcByteLen hs count w = (hs + count) % SIZE_MOD ∧
      (hs + count < SIZE_MOD →
        CalcByteLen hs count w = hs + count ∧ count ≤ CalcByteLen hs count w) ∧
      (SIZE_MOD ≤ hs + count → CalcByteLen hs count w = hs + count - SIZE_MOD) ∧
      CalcByteLen hs count w = CalcByteLen hs count w' := by
  unfold CalcByteLen to_size_t
  rw [SIZE_MOD_eq] at *
  push_cast
  refine ⟨by omega, fun h => ⟨by omega, by omega⟩, fun h => by omega, rfl⟩

theorem CalcByteLen_spec_witness :
    CalcByteLen 8 5 0 = 13 ∧ 5 ≤ CalcByteLen 8 5 0 :=
  ((CalcByteLen_spec 8 5 0 1 (by decide) (by decide)).2.1 (by decide))

/-- C3. For every `size_t` length and width, `CalcItemCount` returns the
`size_t` difference `length - header_size`, the value below `2 ^ 64` that
gives `length` back when `header_size` is added modulo `2 ^ 64`; for every
`length >= header_size` it is the exact difference, and `CalcByteLen` of it is
`length` again. -/
theorem CalcItemCount_spec (hs length w w' : Nat) (hhs : hs < SIZE_MOD)
    (hlength : length < SIZE_MOD) :
    CalcItemCount hs length w < SIZE_MOD ∧
      (CalcItemCount hs length w + hs) % SIZE_MOD = length ∧
      (hs ≤ length →
        CalcItemCount hs length w = length - hs ∧
          CalcByteLen hs (CalcItemCount hs length w) w' = length) := by
  unfold CalcByteLen CalcItemCount to_size_t
  rw [SIZE_MOD_eq] at *
  push_cast
  refine ⟨by omega, by omega, fun h => ⟨by omega, by omega⟩⟩

theorem CalcItemCount_spec_witness :
    CalcItemCount 8 13 0 = 13 - 8 ∧ CalcByteLen 8 (CalcItemCount 8 13 0) 0 = 13 :=
  ((CalcItemCount_spec 8 13 0 0 (by decide) (by decide)).2.2 (by decide))

/-! ## Derived operations -/

/-- C4. `add(data, size, add_zero_term)` has the outcome (resulting state, or
failure and state after it) of `replace(m_size, m_size, data, size,
add_zero_term)`, with `m_size` the size of the node when `add` is called. -/
theorem add_eq_replace (hs : Nat) (alloc : Allocator) (w : World) (data size : Nat)
    (add_zero_term : Bool) :
    ArrayBlob.add hs alloc w data size add_zero_term =
      ArrayBlob.replace hs alloc w w.self.m_size w.self.m_size data size add_zero_term :=
  rfl

/-- C5. `erase(begin, end)` has the outcome of `replace(begin, end, nullptr, 0,
false)`: no replacement bytes, replacement length 0, no zero terminator. -/
theorem erase_eq_replace (hs : Nat) (alloc : Allocator) (w : World) (begin end_ : Nat) :
    ArrayBlob.erase hs alloc w begin end_ =
      ArrayBlob.replace hs alloc w begin end_ 0 0 false :=
  rfl

/-- C6. `insert(pos, data, size, add_zero_term)` has the outcome of
`replace(pos, pos, data, size, add_zero_term)`: the replaced range
`[pos, pos)` is empty. -/
theorem insert_eq_replace (hs : Nat) (alloc : Allocator) (w : World)
    (pos data size : Nat) (add_zero_term : Bool) :
    ArrayBlob.insert hs alloc w pos data size add_zero_term =
      ArrayBlob.replace hs alloc w pos pos data size add_zero_term :=
  rfl

/-! ## Read accessors -/

/-- C7. For an attached node and an index `i < m_size`, the call `get(i)`
returns the address `m_data + i` (without wrap-around) and leaves the state
as it was. -/
theorem get_spec (w : World) (i : Nat) (hattached : w.self.attached)
    (hi : i < w.self.m_size) :
    ArrayBlob.get_call w i = (w.self.m_data + i, w) := by
  obtain ⟨_, hfit⟩ := hattached
  unfold ArrayBlob.get_call ArrayBlob.get to_size_t
  rw [SIZE_MOD_eq] at *
  have h : (((w.self.m_data : Int) + (i : Int)) % ((18446744073709551616 : Nat) : Int)).toNat
      = w.self.m_data + i := by
    push_cast
    omega
  rw [h]

theorem get_spec_witness :
    ArrayBlob.get_call { self := sample_blob, mem := blank_memory } 3
      = (4096 + 3, { self := sample_blob, mem := blank_memory }) :=
  get_spec { self := sample_blob, mem := blank_memory } 3
    ⟨by decide, by decide⟩ (by decide)

/-- C8. For a node attached to the header `h`, that is with
`m_data = get_data_from_header(h)`, the static `get(h, i)` and the node's
`get(i)` return the same address, for every index `i`. -/
theorem get_static_eq_get (hs h i : Nat) (self : ArrayBlob)
    (hdata : self.m_data = get_data_from_header hs h) :
    ArrayBlob.get_static hs h i = self.get i := by
  unfold ArrayBlob.get_static ArrayBlob.get
  rw [hdata]

theorem get_static_eq_get_witness :
    ArrayBlob.get_static 8 4088 3 = sample_blob.get 3 :=
  get_static_eq_get 8 4088 3 sample_blob (by decide)

/-- C9 (as stated, refuted). A node with the non-null data origin 4096 and
the index `2 ^ 64 - 4096`: the address `m_data + index` wraps around to the
null address, so `is_null` returns true although `m_data` is not null. -/
theorem is_null_wraps :
    sample_blob.is_null 18446744073709547520 = true ∧ sample_blob.m_data ≠ 0 := by
  refine ⟨by decide, by decide⟩

/-- C9 (amended). For every node and every index `i` whose address
`m_data + i` does not wrap around (`m_data + i < 2 ^ 64`, which holds for
every valid index of an attached node): if `is_null(i)` returns true then
`m_data` is the null address, and `is_null(i)` is false when `m_data` is not
null. -/
theorem is_null_spec (self : ArrayBlob) (i : Nat) (hnowrap : self.m_data + i < SIZE_MOD) :
    (self.is_null i = true → self.m_data = 0) ∧
      (self.m_data ≠ 0 → self.is_null i = false) := by
  have hget : self.get i = self.m_data + i := by
    unfold ArrayBlob.get to_size_t
    rw [SIZE_MOD_eq] at *
    push_cast
    omega
  unfold ArrayBlob.is_null
  rw [hget]
  constructor
  · intro h
    have h0 : self.m_data + i = 0 := by simpa using h
    omega
  · intro h
    have h0 : self.m_data + i ≠ 0 := by omega
    simpa using h0

theorem is_null_spec_witness :
    sample_blob.m_data + 3 < SIZE_MOD ∧ sample_blob.is_null 3 = false :=
  ⟨by decide, (is_null_spec sample_blob 3 (by decide)).2 (by decide)⟩

/-! ## Construction -/

/-- C10. `create()` calls `create_array(0, alloc)`: when that allocation
fails, `create` fails with the same error and the accessor and the memory are
what they were; when it succeeds with handle `r`, `create` succeeds, the
accessor is bound to `r`, its data origin is the content pointer of `r` and
its size is 0. -/
theorem create_spec (hs : Nat) (alloc : Allocator) (w : World) :
    match ArrayBlob.create_array hs 0 alloc w.mem with
    | Except.error e => ArrayBlob.create hs alloc w = Outcome.thrown e w
    | Except.ok (r, m) =>
      ArrayBlob.create hs alloc w =
        Outcome.ok
          { self := { m_ref := r, m_data := get_data_from_header hs r.m_addr, m_size := 0 },
            mem := m } := by
  unfold ArrayBlob.create ArrayBlob.create_array Array_create
  cases h : alloc.alloc (to_size_t ((hs : Int) + ((0 : Nat) : Int))) with
  | none =>
    simp only [Nat.cast_zero, add_zero] at h
    simp [h]
  | some r =>
    simp only [Nat.cast_zero, add_zero] at h
    simp [h, ArrayBlob.init_from_mem]

theorem create_spec_witness :
    ArrayBlob.create 8 exhausted_allocator fresh_world
        = Outcome.thrown Error.AllocationError fresh_world ∧
      (match ArrayBlob.create 8 small_allocator fresh_world with
        | Outcome.ok w' =>
          w'.self = { m_ref := { m_addr := 4088 }, m_data := 4096, m_size := 0 }
        | Outcome.thrown _ _ => False) :=
  ⟨create_spec 8 exhausted_allocator fresh_world, by
    have h := create_spec 8 small_allocator fresh_world
    have hc : small_allocator.alloc (to_size_t (((8 : Nat) : Int) + ((0 : Nat) : Int)))
        = some { m_addr := 4088 } := by decide
    simp only [ArrayBlob.create_array, Array_create, hc] at h
    rw [h]
    decide⟩

/-! ## Helper lemmas on `replace` -/

theorem get_of_no_wrap (self : ArrayBlob) (i : Nat) (h : self.m_data + i < SIZE_MOD) :
    self.get i = self.m_data + i := by
  unfold ArrayBlob.get to_size_t
  rw [SIZE_MOD_eq] at *
  push_cast
  omega

theorem read_of_no_wrap (w : World) (i : Nat) (h : w.self.m_data + i < SIZE_MOD) :
    ArrayBlob.read w i = w.mem.byte (w.self.m_data + i) := by
  unfold ArrayBlob.read
  rw [get_of_no_wrap w.self i h]

/-- What a successful `replace` leaves: the new size, the handle the
allocator answered with, the data origin and every byte of the memory. -/
theorem replace_ok_inv (hs : Nat) (alloc : Allocator) (w w' : World)
    (begin end_ data size : Nat) (add_zero_term : Bool)
    (hok : ArrayBlob.replace hs alloc w begin end_ data size add_zero_term = Outcome.ok w') :
    w'.self.m_size =
        to_size_t ((w.self.m_size : Int) - ((end_ : Int) - (begin : Int)) +
          ((if add_zero_term then to_size_t ((size : Int) + 1) else size : Nat) : Int)) ∧
      alloc.realloc w.self.m_ref (CalcByteLen hs w'.self.m_size 1) = some w'.self.m_ref ∧
      w'.self.m_data = get_data_from_header hs w'.self.m_ref.m_addr ∧
      ∀ a, w'.mem.byte a =
        if a < w'.self.m_data ∨ w'.self.m_data + w'.self.m_size ≤ a then w.mem.byte a
        else if a - w'.self.m_data < begin then w.mem.byte (w.self.m_data + (a - w'.self.m_data))
        else if a - w'.self.m_data < begin + size then
          w.mem.byte (data + (a - w'.self.m_data - begin))
        else if a - w'.self.m_data <
            begin + (if add_zero_term then to_size_t ((size : Int) + 1) else size) then 0
        else w.mem.byte (w.self.m_data + (end_ + (a - w'.self.m_data -
            (begin + (if add_zero_term then to_size_t ((size : Int) + 1) else size))))) := by
  unfold ArrayBlob.replace at hok
  simp only at hok
  split at hok
  · exact absurd hok (by simp)
  · rename_i r hr
    injection hok with hw
    subst hw
    exact ⟨rfl, hr, rfl, fun a => rfl⟩

/-- A `replace` that throws reports `AllocationError` and leaves the state as
it was. -/
theorem replace_thrown_inv (hs : Nat) (alloc : Allocator) (w w' : World)
    (begin end_ data size : Nat) (add_zero_term : Bool) (e : Error)
    (hthrown :
      ArrayBlob.replace hs alloc w begin end_ data size add_zero_term = Outcome.thrown e w') :
    e = Error.AllocationError ∧ w' = w := by
  unfold ArrayBlob.replace at hthrown
  simp only at hthrown
  split at hthrown
  · injection hthrown with he hw
    exact ⟨he.symm, hw.symm⟩
  · exact absurd hthrown (by simp)

theorem add_size_exact (size : Nat) (add_zero_term : Bool)
    (h : size + (if add_zero_term then 1 else 0) < SIZE_MOD) :
    (if add_zero_term then to_size_t ((size : Int) + 1) else size)
      = size + (if add_zero_term then 1 else 0) := by
  cases add_zero_term
  · simp
  · simp only [if_true]
    simp only [if_true] at h
    unfold to_size_t
    rw [SIZE_MOD_eq] at *
    push_cast
    omega

/-- The size and the bytes of the node after a successful `replace` whose
new size is a `size_t` value and whose new content lies inside the address
space. -/
theorem replace_read (hs : Nat) (alloc : Allocator) (w w' : World)
    (begin end_ data size : Nat) (add_zero_term : Bool)
    (hrange : begin ≤ end_ ∧ end_ ≤ w.self.m_size)
    (hsize : w.self.m_size - (end_ - begin) + size + (if add_zero_term then 1 else 0)
      < SIZE_MOD)
    (hok : ArrayBlob.replace hs alloc w begin end_ data size add_zero_term = Outcome.ok w')
    (hfit : w'.self.m_data + w'.self.m_size ≤ SIZE_MOD) :
    w'.self.m_size
        = w.self.m_size - (end_ - begin) + size + (if add_zero_term then 1 else 0) ∧
      ∀ i, i < w'.self.m_size →
        ArrayBlob.read w' i =
          if i < begin then w.mem.byte (w.self.m_data + i)
          else if i < begin + size then w.mem.byte (data + (i - begin))
          else if i < begin + size + (if add_zero_term then 1 else 0) then 0
          else w.mem.byte (w.self.m_data +
            (end_ + (i - (begin + size + (if add_zero_term then 1 else 0))))) := by
  obtain ⟨hsz, _, _, hbyte⟩ := replace_ok_inv hs alloc w w' begin end_ data size
    add_zero_term hok
  have hadd := add_size_exact size add_zero_term (by omega)
  rw [hadd] at hsz
  have hsz' : w'.self.m_size
      = w.self.m_size - (end_ - begin) + size + (if add_zero_term then 1 else 0) := by
    rw [hsz]
    have hS := SIZE_MOD_eq
    rw [hS] at hsize
    unfold to_size_t
    rw [hS]
    cases add_zero_term
    · simp only [Bool.false_eq_true, if_false] at hsize ⊢
      push_cast
      omega
    · simp only [if_true] at hsize ⊢
      push_cast
      omega
  refine ⟨hsz', fun i hi => ?_⟩
  rw [read_of_no_wrap w' i (by omega), hbyte, hadd]
  have h1 : ¬ (w'.self.m_data + i < w'.self.m_data ∨
      w'.self.m_data + w'.self.m_size ≤ w'.self.m_data + i) := by omega
  rw [if_neg h1]
  have h2 : w'.self.m_data + i - w'.self.m_data = i := by omega
  rw [h2]
  simp only [Nat.add_assoc]

theorem content_length (w : World) : (ArrayBlob.content w).length = w.self.m_size := by
  simp [ArrayBlob.content]

theorem bytes_at_length (mem : Memory) (data n : Nat) : (bytes_at mem data n).length = n := by
  simp [bytes_at]

theorem content_getElem? (w : World) (i : Nat) (hi : i < w.self.m_size) :
    (ArrayBlob.content w)[i]? = some (ArrayBlob.read w i) := by
  simp [ArrayBlob.content, List.getElem?_map, List.getElem?_range, hi]

theorem bytes_at_getElem? (mem : Memory) (data n j : Nat) (hj : j < n) :
    (bytes_at mem data n)[j]? = some (mem.byte (data + j)) := by
  simp [bytes_at, List.getElem?_map, List.getElem?_range, hj]

theorem content_eq_of_read (w : World) (l : List Nat) (hlen : l.length = w.self.m_size)
    (h : ∀ i, i < w.self.m_size → l[i]? = some (ArrayBlob.read w i)) :
    ArrayBlob.content w = l := by
  apply List.ext_getElem?
  intro i
  by_cases hi : i < w.self.m_size
  · rw [content_getElem? w i hi, h i hi]
  · rw [List.getElem?_eq_none (by rw [content_length]; omega),
      List.getElem?_eq_none (by omega)]


/-- The content of the node after a successful `replace`, as a list. -/
theorem replace_content (hs : Nat) (alloc : Allocator) (w w' : World)
    (begin end_ data size : Nat) (add_zero_term : Bool)
    (hfit0 : w.self.m_data + w.self.m_size ≤ SIZE_MOD)
    (hrange : begin ≤ end_ ∧ end_ ≤ w.self.m_size)
    (hsize : w.self.m_size - (end_ - begin) + size + (if add_zero_term then 1 else 0)
      < SIZE_MOD)
    (hok : ArrayBlob.replace hs alloc w begin end_ data size add_zero_term = Outcome.ok w')
    (hfit : w'.self.m_data + w'.self.m_size ≤ SIZE_MOD) :
    ArrayBlob.content w' =
      (ArrayBlob.content w).take begin ++ (bytes_at w.mem data size ++
        ((if add_zero_term then [0] else []) ++ (ArrayBlob.content w).drop end_)) := by
  obtain ⟨hsz, hread⟩ := replace_read hs alloc w w' begin end_ data size add_zero_term
    hrange hsize hok hfit
  have hT : ((ArrayBlob.content w).take begin).length = begin := by
    rw [List.length_take, content_length]
    exact Nat.min_eq_left (by omega)
  have hB := bytes_at_length w.mem data size
  have hZ : (if add_zero_term then [0] else ([] : List Nat)).length
      = if add_zero_term then 1 else 0 := by
    cases add_zero_term <;> rfl
  have hD : ((ArrayBlob.content w).drop end_).length = w.self.m_size - end_ := by
    rw [List.length_drop, content_length]
  apply content_eq_of_read
  · rw [List.length_append, List.length_append, List.length_append, hT, hB, hZ, hD, hsz]
    omega
  · intro i hi
    rw [hread i hi]
    by_cases h1 : i < begin
    · rw [if_pos h1, List.getElem?_append_left (by omega), List.getElem?_take_of_lt h1,
        content_getElem? w i (by omega), read_of_no_wrap w i (by omega)]
    · rw [if_neg h1, List.getElem?_append_right (by omega), hT]
      by_cases h2 : i < begin + size
      · rw [if_pos h2, List.getElem?_append_left (by omega),
          bytes_at_getElem? w.mem data size (i - begin) (by omega)]
      · rw [if_neg h2, List.getElem?_append_right (by omega), hB]
        by_cases h3 : i < begin + size + (if add_zero_term then 1 else 0)
        · rw [if_pos h3, List.getElem?_append_left (by omega)]
          cases add_zero_term
          · simp only [Bool.false_eq_true, if_false] at h3
            omega
          · simp only [if_true] at h3
            have h0 : i - begin - size = 0 := by omega
            rw [h0]
            rfl
        · rw [if_neg h3, List.getElem?_append_right (by omega), hZ, List.getElem?_drop,
            content_getElem? w _ (by omega), read_of_no_wrap w _ (by omega)]
          congr 3
          omega

/-! ## The construction helper -/

/-- C11. A successful `create_array(size, alloc)` returns the handle `r` the
allocator answered the request for `header_size + size` bytes with; the header
of that region records `size` content bytes, the width type "ignored", the
context flag false and the kind `type_Normal`; each of the `size` content
bytes is zero (also when read through the static `get`, for a region inside
the address space); every byte outside the content and every other header is
what it was; and the accessor of the caller is what it was. -/
theorem create_array_spec (hs size : Nat) (alloc : Allocator) (w w' : World) (r : MemRef)
    (hok : ArrayBlob.create_array_call hs size alloc w = Except.ok (r, w')) :
    alloc.alloc (CalcByteLen hs size 1) = some r ∧
      w'.mem.header r.m_addr =
        { size := size, width_type := WidthType.wtype_Ignore, context_flag := false,
          type := ArrayType.type_Normal } ∧
      (∀ i, i < size → w'.mem.byte (get_data_from_header hs r.m_addr + i) = 0) ∧
      (get_data_from_header hs r.m_addr + size ≤ SIZE_MOD →
        ∀ i, i < size → w'.mem.byte (ArrayBlob.get_static hs r.m_addr i) = 0) ∧
      (∀ a, a < get_data_from_header hs r.m_addr ∨
          get_data_from_header hs r.m_addr + size ≤ a → w'.mem.byte a = w.mem.byte a) ∧
      (∀ a, a ≠ r.m_addr → w'.mem.header a = w.mem.header a) ∧
      w'.self = w.self := by
  unfold ArrayBlob.create_array_call ArrayBlob.create_array Array_create at hok
  simp only at hok
  cases halloc : alloc.alloc (to_size_t ((hs : Int) + (size : Int))) with
  | none =>
    rw [halloc] at hok
    exact absurd hok (by simp)
  | some r0 =>
    rw [halloc] at hok
    simp only [Except.ok.injEq, Prod.mk.injEq] at hok
    obtain ⟨hr, hw⟩ := hok
    subst hr
    subst hw
    have hzero : ∀ i, i < size →
        (if get_data_from_header hs r0.m_addr ≤ get_data_from_header hs r0.m_addr + i ∧
            get_data_from_header hs r0.m_addr + i < get_data_from_header hs r0.m_addr + size
          then ((0 : Int) % 256).toNat else w.mem.byte (get_data_from_header hs r0.m_addr + i))
          = 0 := by
      intro i hi
      rw [if_pos ⟨by omega, by omega⟩]
      rfl
    refine ⟨halloc, by simp, hzero, ?_, ?_, ?_, rfl⟩
    · intro hfit i hi
      have hget : ArrayBlob.get_static hs r0.m_addr i
          = get_data_from_header hs r0.m_addr + i := by
        unfold ArrayBlob.get_static to_size_t
        rw [SIZE_MOD_eq] at *
        simp only
        push_cast
        omega
      rw [hget]
      exact hzero i hi
    · intro a ha
      have hn : ¬ (get_data_from_header hs r0.m_addr ≤ a ∧
          a < get_data_from_header hs r0.m_addr + size) := by omega
      simp only [if_neg hn]
    · intro a ha
      simp only [if_neg ha]

theorem create_array_spec_witness :
    (ArrayBlob.create_array_world 8 3 small_allocator fresh_world).mem.header 4088 =
        { size := 3, width_type := WidthType.wtype_Ignore, context_flag := false,
          type := ArrayType.type_Normal } ∧
      (ArrayBlob.create_array_world 8 3 small_allocator fresh_world).mem.byte
        (get_data_from_header 8 4088 + 2) = 0 ∧
      (ArrayBlob.create_array_world 8 3 small_allocator fresh_world).self = fresh_world.self :=
  have h := create_array_spec 8 3 small_allocator fresh_world
    (ArrayBlob.create_array_world 8 3 small_allocator fresh_world) { m_addr := 4088 } rfl
  ⟨h.2.1, h.2.2.1 2 (by decide), h.2.2.2.2.2.2⟩

/-! ## The mutation primitive and the operations derived from it -/

/-- C12. Postcondition of `replace`. For an attached node and
`begin <= end <= m_size`, after a successful `replace(begin, end, data, size,
add_zero_term)` whose new size is a `size_t` value and which leaves the node
attached: the size is `m_size - (end - begin) + size (+1 with the zero
terminator)`; the bytes at `i < begin` are the old ones; the bytes at
`begin <= i < begin + size` are `data[i - begin]`; the byte at `begin + size`
is 0 when the zero terminator is requested; and the bytes from
`begin + size (+1)` on are the old bytes `end`, `end + 1`, ..., `m_size - 1`. -/
theorem replace_spec (hs : Nat) (alloc : Allocator) (w w' : World)
    (begin end_ data size : Nat) (add_zero_term : Bool)
    (hattached : w.self.attached)
    (hrange : begin ≤ end_ ∧ end_ ≤ w.self.m_size)
    (hsize : w.self.m_size - (end_ - begin) + size + (if add_zero_term then 1 else 0)
      < SIZE_MOD)
    (hok : ArrayBlob.replace hs alloc w begin end_ data size add_zero_term = Outcome.ok w')
    (hattached' : w'.self.attached) :
    w'.self.m_size
        = w.self.m_size - (end_ - begin) + size + (if add_zero_term then 1 else 0) ∧
      (∀ i, i < begin → ArrayBlob.read w' i = ArrayBlob.read w i) ∧
      (∀ i, begin ≤ i → i < begin + size →
        ArrayBlob.read w' i = w.mem.byte (data + (i - begin))) ∧
      (add_zero_term = true → ArrayBlob.read w' (begin + size) = 0) ∧
      (∀ j, j < w.self.m_size - end_ →
        ArrayBlob.read w' (begin + size + (if add_zero_term then 1 else 0) + j)
          = ArrayBlob.read w (end_ + j)) := by
  obtain ⟨hsz, hread⟩ := replace_read hs alloc w w' begin end_ data size add_zero_term
    hrange hsize hok hattached'.2
  have hold := hattached.2
  refine ⟨hsz, ?_, ?_, ?_, ?_⟩
  · intro i hi
    rw [hread i (by omega), if_pos hi, read_of_no_wrap w i (by omega)]
  · intro i h1 h2
    rw [hread i (by omega), if_neg (by omega), if_pos h2]
  · intro hz
    subst hz
    simp only [if_true] at hsz hread
    rw [hread (begin + size) (by omega), if_neg (by omega), if_neg (by omega),
      if_pos (by omega)]
  · intro j hj
    have hlt : begin + size + (if add_zero_term then 1 else 0) + j < w'.self.m_size := by
      omega
    rw [hread _ hlt, if_neg (by omega), if_neg (by omega), if_neg (by omega),
      read_of_no_wrap w (end_ + j) (by omega)]
    congr 2
    omega

theorem replace_spec_witness :
    (Outcome.world (ArrayBlob.replace 8 moving_allocator hello_world 1 4 300 1 true)).self.m_size
        = 5 - (4 - 1) + 1 + 1 ∧
      ArrayBlob.read
        (Outcome.world (ArrayBlob.replace 8 moving_allocator hello_world 1 4 300 1 true)) 1
        = hello_memory.byte (300 + (1 - 1)) ∧
      ArrayBlob.content
        (Outcome.world (ArrayBlob.replace 8 moving_allocator hello_world 1 4 300 1 true))
        = [104, 105, 0, 111] :=
  have h := replace_spec 8 moving_allocator hello_world
    (Outcome.world (ArrayBlob.replace 8 moving_allocator hello_world 1 4 300 1 true))
    1 4 300 1 true ⟨by decide, by decide⟩ ⟨by decide, by decide⟩ (by decide) rfl
    ⟨by decide, by decide⟩
  ⟨h.1, h.2.2.1 1 (by decide) (by decide), by decide⟩

/-- C13. Zero-terminator semantics of `add`: after a successful
`add(data, n, true)` on a node of size `old_size` (the new size being a
`size_t` value and the node attached afterwards) the size is
`old_size + n + 1` and the byte read at `get(old_size + n)` is 0. -/
theorem add_zero_term_spec (hs : Nat) (alloc : Allocator) (w w' : World) (data n : Nat)
    (hsize : w.self.m_size + n + 1 < SIZE_MOD)
    (hok : ArrayBlob.add hs alloc w data n true = Outcome.ok w')
    (hattached' : w'.self.attached) :
    w'.self.m_size = w.self.m_size + n + 1 ∧
      ArrayBlob.read w' (w.self.m_size + n) = 0 := by
  unfold ArrayBlob.add at hok
  obtain ⟨hsz, hread⟩ := replace_read hs alloc w w' w.self.m_size w.self.m_size data n true
    ⟨le_refl _, le_refl _⟩ (by simp only [if_true]; omega) hok hattached'.2
  simp only [if_true] at hsz hread
  refine ⟨by omega, ?_⟩
  rw [hread (w.self.m_size + n) (by omega), if_neg (by omega), if_neg (by omega),
    if_pos (by omega)]

theorem add_zero_term_spec_witness :
    (Outcome.world (ArrayBlob.add 8 small_allocator hello_world 200 2 true)).self.m_size
        = 5 + 2 + 1 ∧
      ArrayBlob.read (Outcome.world (ArrayBlob.add 8 small_allocator hello_world 200 2 true))
        (5 + 2) = 0 :=
  add_zero_term_spec 8 small_allocator hello_world
    (Outcome.world (ArrayBlob.add 8 small_allocator hello_world 200 2 true)) 200 2
    (by decide) rfl ⟨by decide, by decide⟩

/-- C14 (as stated, refuted). On the node holding "hello", `add("XY", 2)`
succeeds and the byte read at `get(0)` afterwards is the old first byte `h`
(104), not the first added byte `X` (88): the added bytes are read at
`get(5)` and `get(6)`. -/
theorem add_get_on_non_empty_node :
    ∃ w', ArrayBlob.add 8 small_allocator hello_world 200 2 false = Outcome.ok w' ∧
      bytes_at hello_world.mem 200 2 = [88, 89] ∧
      ArrayBlob.read w' 0 = 104 ∧
      ArrayBlob.content w' = [104, 101, 108, 108, 111, 88, 89] :=
  ⟨Outcome.world (ArrayBlob.add 8 small_allocator hello_world 200 2 false),
    rfl, by decide, by decide, by decide⟩

/-- C14 (amended). Round trip of `add` and `get`: after a successful
`add(data, n)` on a node of size `old_size` (the new size being a `size_t`
value and the node attached afterwards) the size is `old_size + n` and the
byte read at `get(old_size + i)` is `data[i]` for every `i < n`; in
particular on an empty node the byte read at `get(i)` is `data[i]`. -/
theorem add_get_round_trip (hs : Nat) (alloc : Allocator) (w w' : World) (data n : Nat)
    (hsize : w.self.m_size + n < SIZE_MOD)
    (hok : ArrayBlob.add hs alloc w data n false = Outcome.ok w')
    (hattached' : w'.self.attached) :
    w'.self.m_size = w.self.m_size + n ∧
      (∀ i, i < n → ArrayBlob.read w' (w.self.m_size + i) = w.mem.byte (data + i)) ∧
      (w.self.m_size = 0 → ∀ i, i < n → ArrayBlob.read w' i = w.mem.byte (data + i)) := by
  unfold ArrayBlob.add at hok
  obtain ⟨hsz, hread⟩ := replace_read hs alloc w w' w.self.m_size w.self.m_size data n false
    ⟨le_refl _, le_refl _⟩ (by simp only [Bool.false_eq_true, if_false]; omega) hok
    hattached'.2
  simp only [Bool.false_eq_true, if_false] at hsz hread
  have hshift : ∀ i, i < n →
      ArrayBlob.read w' (w.self.m_size + i) = w.mem.byte (data + i) := by
    intro i hi
    rw [hread (w.self.m_size + i) (by omega), if_neg (by omega), if_pos (by omega)]
    congr 2
    omega
  refine ⟨by omega, hshift, ?_⟩
  intro hempty i hi
  have h := hshift i hi
  rw [hempty, Nat.zero_add] at h
  exact h

theorem add_get_round_trip_witness :
    ArrayBlob.read (Outcome.world (ArrayBlob.add 8 small_allocator hello_world 200 2 false))
        (5 + 1) = hello_memory.byte (200 + 1) :=
  (add_get_round_trip 8 small_allocator hello_world
    (Outcome.world (ArrayBlob.add 8 small_allocator hello_world 200 2 false)) 200 2
    (by decide) rfl ⟨by decide, by decide⟩).2.1 1 (by decide)

/-- C16. Size accounting of `erase`: for `begin <= end <= m_size`, a
successful `erase(begin, end)` leaves the size at exactly
`m_size - (end - begin)`, which is not larger than `m_size`: no zero
terminator is added. -/
theorem erase_size (hs : Nat) (alloc : Allocator) (w w' : World) (begin end_ : Nat)
    (hrange : begin ≤ end_ ∧ end_ ≤ w.self.m_size)
    (hsize : w.self.m_size < SIZE_MOD)
    (hok : ArrayBlob.erase hs alloc w begin end_ = Outcome.ok w') :
    w'.self.m_size = w.self.m_size - (end_ - begin) ∧ w'.self.m_size ≤ w.self.m_size := by
  unfold ArrayBlob.erase at hok
  obtain ⟨hsz, _⟩ := replace_ok_inv hs alloc w w' begin end_ 0 0 false hok
  have hsz' : w'.self.m_size = w.self.m_size - (end_ - begin) := by
    rw [hsz]
    unfold to_size_t
    rw [SIZE_MOD_eq] at *
    simp only [Bool.false_eq_true, if_false]
    push_cast
    omega
  exact ⟨hsz', by omega⟩

theorem erase_size_witness :
    (Outcome.world (ArrayBlob.erase 8 moving_allocator hello_world 1 3)).self.m_size
        = 5 - (3 - 1) ∧
      (Outcome.world (ArrayBlob.erase 8 moving_allocator hello_world 1 3)).self.m_size ≤ 5 :=
  erase_size 8 moving_allocator hello_world
    (Outcome.world (ArrayBlob.erase 8 moving_allocator hello_world 1 3)) 1 3
    ⟨by decide, by decide⟩ (by decide) rfl

/-- C17. Atomicity of `add` on allocation failure: when the allocator refuses
the region of `CalcByteLen(m_size + n (+1))` bytes that `add(data, n,
add_zero_term)` asks for, `add` throws `AllocationError` and the accessor and
the memory (so the content and the size of the node) are what they were
before the call. -/
theorem add_atomic (hs : Nat) (alloc : Allocator) (w : World) (data n : Nat)
    (add_zero_term : Bool)
    (hfail : alloc.realloc w.self.m_ref
      (CalcByteLen hs
        (to_size_t ((w.self.m_size : Int) + (n : Int) + (if add_zero_term then 1 else 0))) 1)
      = none) :
    ArrayBlob.add hs alloc w data n add_zero_term = Outcome.thrown Error.AllocationError w ∧
      ArrayBlob.content (Outcome.world (ArrayBlob.add hs alloc w data n add_zero_term))
        = ArrayBlob.content w ∧
      (Outcome.world (ArrayBlob.add hs alloc w data n add_zero_term)).self.m_size
        = w.self.m_size := by
  have hreq : to_size_t ((w.self.m_size : Int) - ((w.self.m_size : Int) - (w.self.m_size : Int))
        + ((if add_zero_term then to_size_t ((n : Int) + 1) else n : Nat) : Int))
      = to_size_t ((w.self.m_size : Int) + (n : Int) + (if add_zero_term then 1 else 0)) := by
    unfold to_size_t
    rw [SIZE_MOD_eq]
    cases add_zero_term
    · simp only [Bool.false_eq_true, if_false]
      push_cast
      omega
    · simp only [if_true]
      push_cast
      omega
  have hthrown : ArrayBlob.add hs alloc w data n add_zero_term
      = Outcome.thrown Error.AllocationError w := by
    unfold ArrayBlob.add ArrayBlob.replace
    simp only
    rw [hreq, hfail]
  refine ⟨hthrown, ?_, ?_⟩
  · rw [hthrown]
    rfl
  · rw [hthrown]
    rfl

theorem add_atomic_witness :
    ArrayBlob.add 8 small_allocator hello_world 200 60 true
        = Outcome.thrown Error.AllocationError hello_world ∧
      ArrayBlob.content (Outcome.world (ArrayBlob.add 8 small_allocator hello_world 200 60 true))
        = ArrayBlob.content hello_world ∧
      (Outcome.world (ArrayBlob.add 8 small_allocator hello_world 200 60 true)).self.m_size
        = hello_world.self.m_size :=
  add_atomic 8 small_allocator hello_world 200 60 true (by decide)

/-- C18. Appending is insertion at the end: `insert(m_size, data, n,
add_zero_term)`, with `m_size` the size of the node at the call, has the
outcome of `add(data, n, add_zero_term)`. -/
theorem insert_at_end_eq_add (hs : Nat) (alloc : Allocator) (w : World) (data n : Nat)
    (add_zero_term : Bool) :
    ArrayBlob.insert hs alloc w w.self.m_size data n add_zero_term =
      ArrayBlob.add hs alloc w data n add_zero_term :=
  rfl

/-- C19. `is_null(index)` is true exactly when the address `m_data + index`
(reduced modulo `2 ^ 64`) is the null address; hence on an unattached node
(`m_data` null) `is_null(0)` is true and `is_null(index)` is false for every
non-zero `size_t` index. -/
theorem is_null_unattached (self : ArrayBlob) (index : Nat) (hindex : index < SIZE_MOD) :
    (self.is_null index = true ↔ (self.m_data + index) % SIZE_MOD = 0) ∧
      (self.m_data = 0 →
        self.is_null 0 = true ∧ (index ≠ 0 → self.is_null index = false)) := by
  have hget : ∀ i, self.get i = (self.m_data + i) % SIZE_MOD := by
    intro i
    unfold ArrayBlob.get to_size_t
    rw [SIZE_MOD_eq]
    push_cast
    omega
  have hiff : ∀ i, self.is_null i = true ↔ (self.m_data + i) % SIZE_MOD = 0 := by
    intro i
    unfold ArrayBlob.is_null
    rw [hget i]
    simp
  refine ⟨hiff index, fun hnull => ⟨?_, fun hne => ?_⟩⟩
  · rw [hiff 0, hnull]
    rfl
  · have hn : ¬ (self.is_null index = true) := by
      rw [hiff index, hnull, SIZE_MOD_eq]
      rw [SIZE_MOD_eq] at hindex
      omega
    simpa using hn

theorem is_null_unattached_witness :
    fresh_world.self.is_null 0 = true ∧ fresh_world.self.is_null 3 = false :=
  have h := (is_null_unattached fresh_world.self 3 (by decide)).2 rfl
  ⟨h.1, h.2 (by decide)⟩

/-- C15. Insert/erase round trip. For an attached node with content `c`,
`pos <= m_size` and `n` bytes at `data` (with `m_size + n` a `size_t` value):
a successful `insert(pos, data, n)` that leaves the node attached yields the
content `c[0..pos) ++ data ++ c[pos..m_size)` and the size `m_size + n`, and a
following successful `erase(pos, pos + n)` that leaves the node attached
yields the content `c` and the size `m_size` again. -/
theorem insert_erase_round_trip (hs : Nat) (alloc alloc' : Allocator) (w w1 w2 : World)
    (pos data n : Nat)
    (hattached : w.self.attached)
    (hpos : pos ≤ w.self.m_size)
    (hsize : w.self.m_size + n < SIZE_MOD)
    (hins : ArrayBlob.insert hs alloc w pos data n false = Outcome.ok w1)
    (hattached1 : w1.self.attached)
    (hera : ArrayBlob.erase hs alloc' w1 pos (pos + n) = Outcome.ok w2)
    (hattached2 : w2.self.attached) :
    ArrayBlob.content w1 =
        (ArrayBlob.content w).take pos ++ bytes_at w.mem data n ++
          (ArrayBlob.content w).drop pos ∧
      w1.self.m_size = w.self.m_size + n ∧
      ArrayBlob.content w2 = ArrayBlob.content w ∧
      w2.self.m_size = w.self.m_size := by
  unfold ArrayBlob.insert at hins
  unfold ArrayBlob.erase at hera
  have hsize1 : w.self.m_size - (pos - pos) + n + (if false = true then 1 else 0)
      < SIZE_MOD := by
    simp only [Bool.false_eq_true, if_false]
    omega
  have hsz1 := (replace_read hs alloc w w1 pos pos data n false ⟨le_refl _, hpos⟩ hsize1
    hins hattached1.2).1
  have hc1 := replace_content hs alloc w w1 pos pos data n false hattached.2
    ⟨le_refl _, hpos⟩ hsize1 hins hattached1.2
  simp only [Bool.false_eq_true, if_false, List.nil_append] at hsz1 hc1
  have hsz1' : w1.self.m_size = w.self.m_size + n := by omega
  have hsize2 : w1.self.m_size - (pos + n - pos) + 0 + (if false = true then 1 else 0)
      < SIZE_MOD := by
    simp only [Bool.false_eq_true, if_false]
    omega
  have hsz2 := (replace_read hs alloc' w1 w2 pos (pos + n) 0 0 false
    ⟨by omega, by omega⟩ hsize2 hera hattached2.2).1
  have hc2 := replace_content hs alloc' w1 w2 pos (pos + n) 0 0 false hattached1.2
    ⟨by omega, by omega⟩ hsize2 hera hattached2.2
  simp only [Bool.false_eq_true, if_false, List.nil_append] at hsz2 hc2
  have hnil : bytes_at w1.mem 0 0 = [] := rfl
  rw [hnil, List.nil_append] at hc2
  have hT : ((ArrayBlob.content w).take pos).length = pos := by
    rw [List.length_take, content_length]
    exact Nat.min_eq_left hpos
  have hB := bytes_at_length w.mem data n
  have e1 : List.take pos (ArrayBlob.content w1) = (ArrayBlob.content w).take pos := by
    rw [hc1]
    have h := List.take_left ((ArrayBlob.content w).take pos)
      (bytes_at w.mem data n ++ (ArrayBlob.content w).drop pos)
    rw [hT] at h
    exact h
  have e2 : List.drop (pos + n) (ArrayBlob.content w1) = (ArrayBlob.content w).drop pos := by
    rw [hc1]
    have h := @List.drop_append _ ((ArrayBlob.content w).take pos)
      (bytes_at w.mem data n ++ (ArrayBlob.content w).drop pos) n
    rw [hT] at h
    rw [h]
    have h' := List.drop_left (bytes_at w.mem data n) ((ArrayBlob.content w).drop pos)
    rw [hB] at h'
    exact h'
  refine ⟨?_, hsz1', ?_, by omega⟩
  · rw [hc1, List.append_assoc]
  · rw [hc2, e1, e2, List.take_append_drop]

theorem insert_erase_round_trip_witness :
    ArrayBlob.content (Outcome.world (ArrayBlob.insert 8 moving_allocator hello_world 2 200 2 false))
        = [104, 101, 88, 89, 108, 108, 111] ∧
      (Outcome.world (ArrayBlob.insert 8 moving_allocator hello_world 2 200 2 false)).self.m_size
        = 7 ∧
      ArrayBlob.content (Outcome.world (ArrayBlob.erase 8 moving_allocator
        (Outcome.world (ArrayBlob.insert 8 moving_allocator hello_world 2 200 2 false)) 2 (2 + 2)))
        = [104, 101, 108, 108, 111] ∧
      (Outcome.world (ArrayBlob.erase 8 moving_allocator
        (Outcome.world (ArrayBlob.insert 8 moving_allocator hello_world 2 200 2 false)) 2
          (2 + 2))).self.m_size = 5 :=
  insert_erase_round_trip 8 moving_allocator moving_allocator hello_world
    (Outcome.world (ArrayBlob.insert 8 moving_allocator hello_world 2 200 2 false))
    (Outcome.world (ArrayBlob.erase 8 moving_allocator
      (Outcome.world (ArrayBlob.insert 8 moving_allocator hello_world 2 200 2 false)) 2 (2 + 2)))
    2 200 2 ⟨by decide, by decide⟩ (by decide) (by decide) rfl ⟨by decide, by decide⟩ rfl
    ⟨by decide, by decide⟩

end realm
